import Mathlib

/-!
Verification of the SP3 structural compaction engine (`bert/modeling/mixer.py`)
against its natural-language specification.

The affine-fusion primitive (`LinearMixer.merge`, `LinearMixer.merge_mask`), the
per-layer compaction procedure (`CompactorMixer.mix`) and the configuration
derivation (`get_packed_bert_config`) are embedded below.  Matrices are
represented as total functions `ℕ → ℕ → ℚ` together with explicit
`in_features` / `out_features` fields, mirroring `nn.Linear`; entries outside
the declared range are junk and all stated properties quantify accordingly.
Pieces of the repository that mixer.py imports from `compactor.py` (masks,
compactor extraction, layer-norm extraction), which is not part of the given
sources, are modelled from the specification and marked as such.
-/

namespace SP3

/-- An affine transform `y = W x + b`, embedding `torch.nn.Linear`:
`weight` is an `outF × inF` matrix (row index first), `bias` an optional
`outF`-vector.  Entries outside the declared dimensions are irrelevant junk. -/
@[ext]
structure Linear where
  inF : ℕ
  outF : ℕ
  weight : ℕ → ℕ → ℚ
  bias : Option (ℕ → ℚ)

/-- Application of an affine transform to an input vector, `y = W x + b`
(a missing bias reads as zero).  Row `i` is meaningful for `i < outF`. -/
def Linear.apply (l : Linear) (x : ℕ → ℚ) : ℕ → ℚ :=
  fun i =>
    (∑ j in Finset.range l.inF, l.weight i j * x j) +
      (match l.bias with
       | some b => b i
       | none => 0)

/-- Embeds `LinearMixer.merge` (mixer.py lines 72–90): the fused transform has
weight `W_other · W_self`; the bias accumulator starts at zero, adds
`W_other · b_self` when `self` has a bias and `b_other` when `other` has one,
but is stored only when BOTH inputs carry a bias
(`bias = (self.linear.bias is not None) and (other.bias is not None)`). -/
def Linear.merge (self other : Linear) : Linear :=
  let biasFlag := self.bias.isSome && other.bias.isSome
  let newWeight : ℕ → ℕ → ℚ := fun i j =>
    ∑ k in Finset.range other.inF, other.weight i k * self.weight k j
  let nb0 : ℕ → ℚ := fun _ => 0
  let nb1 : ℕ → ℚ :=
    match self.bias with
    | some b => fun i => nb0 i + ∑ k in Finset.range other.inF, other.weight i k * b k
    | none => nb0
  let nb2 : ℕ → ℚ :=
    match other.bias with
    | some b => fun i => nb1 i + b i
    | none => nb1
  { inF := self.inF
    outF := other.outF
    weight := newWeight
    bias := if biasFlag then some nb2 else none }

/-- Embeds `LinearMixer.merge_mask` (mixer.py lines 92–101): keep the weight
rows at `indices` (and the bias entries at the same positions); the result has
`out_features = indices.length` and a bias exactly when `self` has one. -/
def Linear.mergeMask (self : Linear) (indices : List ℕ) : Linear :=
  { inF := self.inF
    outF := indices.length
    weight := fun i j => self.weight (indices.getD i 0) j
    bias := self.bias.map (fun b => fun i => b (indices.getD i 0)) }

/-- Extensional equality of affine transforms: same declared dimensions, same
bias presence, and the same output on every input at every meaningful row. -/
def Linear.EquivT (A B : Linear) : Prop :=
  A.inF = B.inF ∧ A.outF = B.outF ∧ A.bias.isSome = B.bias.isSome ∧
    ∀ x : ℕ → ℚ, ∀ i < A.outF, A.apply x i = B.apply x i

/-- Modelled from the spec: `SelectionMatrix(indices)` over an output universe
of size `D` — the 0/1 matrix whose row `i` selects position `indices[i]`;
a plain matrix, carrying no bias. -/
def selectionMatrix (D : ℕ) (idx : List ℕ) : Linear :=
  { inF := D
    outF := idx.length
    weight := fun i j => if idx.getD i 0 = j then 1 else 0
    bias := none }

theorem Linear.merge_weight (A B : Linear) (i j : ℕ) :
    (A.merge B).weight i j = ∑ k in Finset.range B.inF, B.weight i k * A.weight k j := rfl

theorem Linear.merge_bias_isSome (A B : Linear) :
    (A.merge B).bias.isSome = (A.bias.isSome && B.bias.isSome) := by
  cases hA : A.bias <;> cases hB : B.bias <;> simp [Linear.merge, hA, hB]

theorem sum_mul_sum_comm (m n : ℕ) (b : ℕ → ℚ) (a : ℕ → ℕ → ℚ) (x : ℕ → ℚ) :
    ∑ j in Finset.range m, (∑ k in Finset.range n, b k * a k j) * x j
      = ∑ k in Finset.range n, b k * ∑ j in Finset.range m, a k j * x j := by
  calc ∑ j in Finset.range m, (∑ k in Finset.range n, b k * a k j) * x j
      = ∑ j in Finset.range m, ∑ k in Finset.range n, b k * a k j * x j := by
        simp [Finset.sum_mul]
    _ = ∑ k in Finset.range n, ∑ j in Finset.range m, b k * a k j * x j := Finset.sum_comm
    _ = ∑ k in Finset.range n, b k * ∑ j in Finset.range m, a k j * x j := by
        simp [Finset.mul_sum, mul_assoc]

theorem Linear.merge_apply (A B : Linear) (hb : A.bias.isSome = B.bias.isSome)
    (x : ℕ → ℚ) (i : ℕ) : (A.merge B).apply x i = B.apply (A.apply x) i := by
  cases hA : A.bias with
  | none =>
    cases hB : B.bias with
    | none =>
      simp [Linear.apply, Linear.merge, hA, hB, sum_mul_sum_comm]
    | some bB => rw [hA, hB] at hb; simp at hb
  | some bA =>
    cases hB : B.bias with
    | none => rw [hA, hB] at hb; simp at hb
    | some bB =>
      simp only [Linear.apply, Linear.merge, hA, hB, Option.isSome_some, Bool.and_self,
        if_pos, zero_add]
      rw [sum_mul_sum_comm]
      rw [show (∀ S T : ℕ → ℚ, ∑ k in Finset.range B.inF, B.weight i k * (S k + T k)
        = ∑ k in Finset.range B.inF, B.weight i k * S k
          + ∑ k in Finset.range B.inF, B.weight i k * T k) from fun S T => by
            simp [mul_add, Finset.sum_add_distrib]]
      ring

theorem Linear.merge_bias_val (A B : Linear) (bA bB : ℕ → ℚ) (hA : A.bias = some bA)
    (hB : B.bias = some bB) (i : ℕ) :
    (A.merge B).bias.getD (fun _ => 0) i
      = (∑ k in Finset.range B.inF, B.weight i k * bA k) + bB i := by
  simp [Linear.merge, hA, hB]

/-- The input transform of C1's counterexample: the 1×1 identity with bias 1. -/
def c1A : Linear := ⟨1, 1, fun _ _ => 1, some (fun _ => 1)⟩

/-- The second transform of C1's counterexample: the 1×1 identity without bias. -/
def c1B : Linear := ⟨1, 1, fun _ _ => 1, none⟩

/-- Claim C1 counterexample: for `A` the 1×1 identity with bias 1 and `B` the 1×1
identity without bias (dimensions compatible), `merge(A, B)` applied to the zero
vector is 0 while `B(A(0)) = 1`, and the merged transform carries no bias even
though `A` contributed one — refuting both the functional equality and the
"bias whenever either input contributed one" part of the claim. -/
theorem c1_counterexample :
    (Linear.merge c1A c1B).apply (fun _ => 0) 0 ≠ c1B.apply (c1A.apply (fun _ => 0)) 0
    ∧ c1A.bias.isSome = true ∧ (Linear.merge c1A c1B).bias.isSome = false := by
  refine ⟨?_, by decide, by decide⟩
  simp [Linear.apply, Linear.merge, c1A, c1B, Finset.sum_range_succ]

/-- Claim C1 (amended): `merge(A, B)` (with `A`'s output width equal to `B`'s
input width) has weight `W_B · W_A`; it carries a bias exactly when BOTH inputs
do (the code computes `bias = (self.bias is not None) and (other.bias is not
None)`), in which case the bias is `W_B · b_A + b_B`; and `merge(A,B)(x) =
B(A(x))` holds whenever the two inputs agree on bias presence (both carry one
or neither does). -/
theorem c1_merge_contract (A B : Linear) (h : A.outF = B.inF) :
    (A.merge B).bias.isSome = (A.bias.isSome && B.bias.isSome)
    ∧ (∀ i j, (A.merge B).weight i j
        = ∑ k in Finset.range B.inF, B.weight i k * A.weight k j)
    ∧ (∀ bA bB i, A.bias = some bA → B.bias = some bB →
        (A.merge B).bias.getD (fun _ => 0) i
          = (∑ k in Finset.range B.inF, B.weight i k * bA k) + bB i)
    ∧ (A.bias.isSome = B.bias.isSome →
        ∀ x i, (A.merge B).apply x i = B.apply (A.apply x) i) :=
  ⟨A.merge_bias_isSome B, fun i j => A.merge_weight B i j,
   fun bA bB i hA hB => A.merge_bias_val B bA bB hA hB i,
   fun hb x i => A.merge_apply B hb x i⟩

/-- First transform of C1's witness, with a bias. -/
def c1WA : Linear := ⟨1, 1, fun _ _ => 2, some (fun _ => 3)⟩

/-- Second transform of C1's witness, with a bias. -/
def c1WB : Linear := ⟨1, 1, fun _ _ => 5, some (fun _ => 7)⟩

theorem c1_witness :
    (Linear.merge c1WA c1WB).bias.getD (fun _ => 0) 0
      = (∑ k in Finset.range c1WB.inF, c1WB.weight 0 k * 3) + 7
    ∧ (Linear.merge c1WA c1WB).apply (fun _ => 1) 0
      = c1WB.apply (c1WA.apply (fun _ => 1)) 0 :=
  ⟨(c1_merge_contract c1WA c1WB rfl).2.2.1 (fun _ => 3) (fun _ => 7) 0 rfl rfl,
   (c1_merge_contract c1WA c1WB rfl).2.2.2 rfl (fun _ => 1) 0⟩

theorem Linear.mergeMask_apply (A : Linear) (idx : List ℕ) (x : ℕ → ℚ) (i : ℕ) :
    (A.mergeMask idx).apply x i = A.apply x (idx.getD i 0) := by
  cases hA : A.bias <;> simp [Linear.apply, Linear.mergeMask, hA]

theorem sum_indicator_mul (n a : ℕ) (f : ℕ → ℚ) (ha : a < n) :
    ∑ k in Finset.range n, (if a = k then (1 : ℚ) else 0) * f k = f a := by
  simp [ite_mul, Finset.sum_ite_eq, Finset.mem_range, ha]

/-- The transform of C2's counterexample: a 1×1 identity with bias 1. -/
def c2A : Linear := ⟨1, 1, fun _ _ => 1, some (fun _ => 1)⟩

/-- Claim C2 counterexample: for `A` the 1×1 identity with bias 1 and the index
list `[0]` (all indices in range), `merge_mask(A, [0])` keeps the selected bias
entry while `merge(A, SelectionMatrix([0]))` drops the bias (the selection
matrix carries none and `merge` keeps a bias only when both operands do): the
two differ both in bias presence and in value on the zero input (1 versus 0),
so they are not equal as transforms. -/
theorem c2_counterexample :
    ¬ Linear.EquivT (c2A.mergeMask [0]) (c2A.merge (selectionMatrix 1 [0]))
    ∧ (c2A.mergeMask [0]).apply (fun _ => 0) 0
        ≠ (c2A.merge (selectionMatrix 1 [0])).apply (fun _ => 0) 0 := by
  constructor
  · rintro ⟨-, -, hb, -⟩
    revert hb
    decide
  · simp [Linear.apply, Linear.mergeMask, Linear.merge, c2A, selectionMatrix,
      Finset.sum_range_succ]

/-- Claim C2 (amended): `merge_mask(A, idx)` applied to `x` equals selecting the
entries at `idx` from `A(x)` directly, for every `A`, `idx` and `x`; and it
equals `merge(A, SelectionMatrix(idx))` as a transform whenever `A` carries no
bias (when `A` has a bias, `merge` against the bias-free selection matrix drops
it while `merge_mask` keeps the selected bias entries, and the two differ). -/
theorem c2_merge_mask (A : Linear) (idx : List ℕ) :
    (∀ x i, (A.mergeMask idx).apply x i = A.apply x (idx.getD i 0))
    ∧ (A.bias = none → (∀ e ∈ idx, e < A.outF) →
        Linear.EquivT (A.mergeMask idx) (A.merge (selectionMatrix A.outF idx))) := by
  refine ⟨fun x i => A.mergeMask_apply idx x i, fun hA hidx => ⟨rfl, rfl, ?_, ?_⟩⟩
  · simp [Linear.mergeMask, Linear.merge, selectionMatrix, hA]
  · intro x i hi
    have hil : i < idx.length := by simpa [Linear.mergeMask] using hi
    have hmem : idx.getD i 0 ∈ idx := by
      rw [List.getD_eq_getElem idx 0 hil]
      exact List.getElem_mem hil
    have hlt : idx.getD i 0 < A.outF := hidx _ hmem
    rw [A.mergeMask_apply idx x i,
      A.merge_apply (selectionMatrix A.outF idx) (by simp [selectionMatrix, hA]) x i]
    show A.apply x (idx.getD i 0)
      = (∑ k in Finset.range A.outF,
          (if idx.getD i 0 = k then (1 : ℚ) else 0) * A.apply x k) + 0
    rw [sum_indicator_mul A.outF (idx.getD i 0) (fun k => A.apply x k) hlt]
    exact (add_zero _).symm

/-- A bias-free 1→2 transform used by C2's witness. -/
def c2WA : Linear := ⟨1, 2, fun i j => (i : ℚ) + (j : ℚ), none⟩

theorem c2_witness :
    (c2WA.mergeMask [1]).apply (fun _ => 1) 0 = c2WA.apply (fun _ => 1) 1
    ∧ Linear.EquivT (c2WA.mergeMask [1]) (c2WA.merge (selectionMatrix c2WA.outF [1])) :=
  ⟨(c2_merge_mask c2WA [1]).1 (fun _ => 1) 0,
   (c2_merge_mask c2WA [1]).2 rfl (by decide)⟩

theorem Linear.merge_assoc (A B C : Linear) :
    (A.merge B).merge C = A.merge (B.merge C) := by
  have hw : ((A.merge B).merge C).weight = (A.merge (B.merge C)).weight := by
    funext i j
    exact (sum_mul_sum_comm B.inF C.inF (fun k => C.weight i k)
      (fun k l => B.weight k l) (fun l => A.weight l j)).symm
  have hb : ((A.merge B).merge C).bias = (A.merge (B.merge C)).bias := by
    cases hA : A.bias with
    | none =>
      cases hB : B.bias <;> cases hC : C.bias <;> simp [Linear.merge, hA]
    | some bA =>
      cases hB : B.bias with
      | none => cases hC : C.bias <;> simp [Linear.merge, hA, hB]
      | some bB =>
        cases hC : C.bias with
        | none => simp [Linear.merge, hA, hB, hC]
        | some bC =>
          simp only [Linear.merge, hA, hB, hC, Option.isSome_some, Bool.and_self,
            if_true, Option.isSome_none, Bool.true_and]
          refine congrArg some (funext fun i => ?_)
          simp only [zero_add]
          rw [show (∀ S T : ℕ → ℚ, ∑ k in Finset.range C.inF, C.weight i k * (S k + T k)
            = ∑ k in Finset.range C.inF, C.weight i k * S k
              + ∑ k in Finset.range C.inF, C.weight i k * T k) from fun S T => by
                simp [mul_add, Finset.sum_add_distrib]]
          rw [(sum_mul_sum_comm B.inF C.inF (fun k => C.weight i k)
            (fun k l => B.weight k l) (fun l => bA l)).symm]
          ring
  exact Linear.ext rfl rfl hw hb

/-- Claim C3: for all affine transforms `A`, `B`, `C` with compatible dimensions
and every input `x`, `merge(merge(A,B),C)` applied to `x` equals
`merge(A,merge(B,C))` applied to `x` over exact arithmetic, and the two sides
agree on whether the composed transform carries a bias (in fact the two merges
are equal as transforms). -/
theorem c3_merge_assoc (A B C : Linear) (h1 : A.outF = B.inF) (h2 : B.outF = C.inF) :
    ((A.merge B).merge C).bias.isSome = (A.merge (B.merge C)).bias.isSome
    ∧ ∀ x i, ((A.merge B).merge C).apply x i = (A.merge (B.merge C)).apply x i := by
  rw [Linear.merge_assoc]
  exact ⟨rfl, fun x i => rfl⟩

/-- First transform of C3's witness (has a bias). -/
def c3A : Linear := ⟨1, 1, fun _ _ => 2, some (fun _ => 1)⟩

/-- Second transform of C3's witness (no bias). -/
def c3B : Linear := ⟨1, 1, fun _ _ => 3, none⟩

/-- Third transform of C3's witness (has a bias). -/
def c3C : Linear := ⟨1, 1, fun _ _ => 5, some (fun _ => 4)⟩

theorem c3_witness :
    ((c3A.merge c3B).merge c3C).bias.isSome = (c3A.merge (c3B.merge c3C)).bias.isSome
    ∧ ((c3A.merge c3B).merge c3C).apply (fun _ => 1) 0
        = (c3A.merge (c3B.merge c3C)).apply (fun _ => 1) 0 :=
  ⟨(c3_merge_assoc c3A c3B c3C rfl rfl).1,
   (c3_merge_assoc c3A c3B c3C rfl rfl).2 (fun _ => 1) 0⟩

/-- Modelled from the spec: a Feature Mask over a universe of `size` features,
one learned gate value per feature (the `Mask` class of `compactor.py` is not
among the given sources). -/
structure Mask where
  size : ℕ
  gate : ℕ → ℚ

/-- Modelled from the spec: `Mask.parse()` returns `(values, indices)`, where
`indices` are the ascending positions of the features whose gate exceeds the
drop threshold (zero) and `values` are the corresponding gate magnitudes. -/
def Mask.parse (m : Mask) : List ℚ × List ℕ :=
  let idx := (List.range m.size).filter (fun i => decide (0 < m.gate i))
  (idx.map m.gate, idx)

/-- The per-row scale factor of a compactor extraction: the matching `values`
entry when values are supplied, and 1 otherwise. -/
def extractScale (vals : Option (List ℚ)) (i : ℕ) : ℚ :=
  match vals with
  | some v => v.getD i 1
  | none => 1

/-- Modelled from the spec: `Compactor.extract("output", indices, values?)` —
select the rows of the compactor's weight at `indices` (and its bias entries),
optionally multiplying each selected row and bias entry by the corresponding
`values` entry; produces a `D→K` transform. -/
def extractOutput (c : Linear) (idx : List ℕ) (vals : Option (List ℚ)) : Linear :=
  { inF := c.inF
    outF := idx.length
    weight := fun i j => extractScale vals i * c.weight (idx.getD i 0) j
    bias := c.bias.map (fun b => fun i => extractScale vals i * b (idx.getD i 0)) }

/-- Modelled from the spec: `Compactor.extract("input", indices, values?)` —
select the columns of the compactor's weight at `indices`, scaling each
selected column by the corresponding `values` entry when values are given
(matching the call sites, which pass the gate values so that the reduced
transform absorbs the gate applied to the dropped-feature stream); produces a
`K→D` transform, keeping the bias. -/
def extractInput (c : Linear) (idx : List ℕ) (vals : Option (List ℚ)) : Linear :=
  { inF := idx.length
    outF := c.outF
    weight := fun i j => c.weight i (idx.getD j 0) * extractScale vals j
    bias := c.bias }

/-- Modelled from the spec: a normalization (per-feature scale/shift) bundled
with its Feature Mask and its `in_comp` / `out_comp` compactor probes
(`LayerNormWithCompactor`). -/
structure LayerNormC where
  size : ℕ
  normWeight : ℕ → ℚ
  normBias : ℕ → ℚ
  mask : Mask
  in_comp : Linear
  out_comp : Linear

/-- A normalization restricted to its kept features, as produced by
`LayerNormWithCompactor.extract`; `packed_size` records the retained width. -/
structure PackedNorm where
  packed_size : ℕ
  normWeight : ℕ → ℚ
  normBias : ℕ → ℚ

/-- Modelled from the spec: `LayerNormWithCompactor.extract(indices)` restricts
the normalization to the `K = len(indices)` kept features, selecting the
corresponding scale/shift entries. -/
def LayerNormC.extract (n : LayerNormC) (idx : List ℕ) : PackedNorm :=
  { packed_size := idx.length
    normWeight := fun i => n.normWeight (idx.getD i 0)
    normBias := fun i => n.normBias (idx.getD i 0) }

/-- A linear with a compactor attached after it and a Feature Mask over its
output positions (`LinearWithCompactorAfter`). -/
structure LinearWithCompactorAfter where
  base : Linear
  compactor : Linear
  mask : Mask

/-- Modelled from the spec: `extract()` unwraps to the bare base transform. -/
def LinearWithCompactorAfter.extract (m : LinearWithCompactorAfter) : Linear := m.base

/-- A linear with a compactor attached before it (`LinearWithCompactorBefore`). -/
structure LinearWithCompactorBefore where
  base : Linear
  compactor : Linear

/-- Modelled from the spec: `extract()` unwraps to the bare base transform. -/
def LinearWithCompactorBefore.extract (m : LinearWithCompactorBefore) : Linear := m.base

/-- A linear with a Feature Mask over its input features
(`LinearWithMaskBefore`). -/
structure LinearWithMaskBefore where
  base : Linear
  mask : Mask

/-- Modelled from the spec: `LinearWithMaskBefore.extract(indices, values)` —
the base transform restricted on its input side, column-selecting the weight at
`indices` and scaling each selected column by the matching `values` entry. -/
def LinearWithMaskBefore.extract (m : LinearWithMaskBefore) (idx : List ℕ)
    (vals : List ℚ) : Linear :=
  extractInput m.base idx (some vals)

/-- One encoder layer of the trained masked model (`CompactBertLayer`), holding
exactly the sub-modules `CompactorMixer.mix` reads. -/
structure CompactLayer where
  query : LinearWithCompactorAfter
  key : LinearWithCompactorAfter
  value : LinearWithCompactorAfter
  attnOutDense : LinearWithCompactorBefore
  attnOutNorm : LayerNormC
  intermediateDense : Linear
  outputDense : LinearWithMaskBefore
  outputNorm : LayerNormC

/-- A q/k/v slot of the live model: either the original compactor-wrapped
projection, or the fused plain transform `mix` assigns in its place. -/
inductive AttnSlot
  | orig (m : LinearWithCompactorAfter)
  | fused (l : Linear)

/-- The attention-output dense slot of the live model. -/
inductive OutDenseSlot
  | orig (m : LinearWithCompactorBefore)
  | fused (l : Linear)

/-- The feed-forward down-projection slot of the live model. -/
inductive FfnDenseSlot
  | orig (m : LinearWithMaskBefore)
  | fused (l : Linear)

/-- A LayerNorm slot of the live model: the original wrapped normalization, or
the reduced normalization `mix` assigns in its place. -/
inductive NormSlot
  | orig (n : LayerNormC)
  | packed (p : PackedNorm)

/-- The embedding LayerNorm slot: originally a wrapped normalization; after
`mix` an `nn.Sequential` of the extracted `in_comp` and the reduced norm. -/
inductive EmbNormSlot
  | orig (n : LayerNormC)
  | packedSeq (comp : Linear) (p : PackedNorm)

/-- One encoder layer of the live (mutable) model object graph. -/
structure Layer where
  query : AttnSlot
  key : AttnSlot
  value : AttnSlot
  attnOutDense : OutDenseSlot
  attnOutNorm : NormSlot
  attnResidual : Option Linear
  intermediateDense : Linear
  outputDense : FfnDenseSlot
  outputNorm : NormSlot
  outputResidual : Option Linear

/-- The trained masked model as handed to the compaction engine. -/
structure CompactModel where
  embLayerNorm : LayerNormC
  layers : List CompactLayer
  poolerDense : Linear
  numAttentionHeads : ℕ

/-- The live model object graph, whose slots `mix` reassigns in place. -/
structure Model where
  embLayerNorm : EmbNormSlot
  layers : List Layer
  poolerDense : Linear
  numAttentionHeads : ℕ

/-- The live view of a freshly trained layer: every slot holds its original
wrapped module and no residual transform has been materialized. -/
def CompactLayer.toLayer (L : CompactLayer) : Layer :=
  { query := .orig L.query
    key := .orig L.key
    value := .orig L.value
    attnOutDense := .orig L.attnOutDense
    attnOutNorm := .orig L.attnOutNorm
    attnResidual := none
    intermediateDense := L.intermediateDense
    outputDense := .orig L.outputDense
    outputNorm := .orig L.outputNorm
    outputResidual := none }

/-- The live view of the trained model before compaction runs. -/
def CompactModel.toModel (M : CompactModel) : Model :=
  { embLayerNorm := .orig M.embLayerNorm
    layers := M.layers.map CompactLayer.toLayer
    poolerDense := M.poolerDense
    numAttentionHeads := M.numAttentionHeads }

/-- Embeds the per-layer body of `CompactorMixer.mix` (mixer.py 126–204):
parse the six masks (`qk` from the query module's mask, `vo` from the value
module's mask, `ffn` from the down-projection's mask), reduce the two layer
norms, fuse the attention, feed-forward and residual chains, and assign the
results onto the layer's slots.  `norm0` is the threaded previous
normalization; the returned cursor is the layer's own original output
normalization (line 204). -/
def mixLayer (norm0 : LayerNormC) (L : CompactLayer) : Layer × LayerNormC :=
  let norm0p := norm0.mask.parse
  let norm1p := L.attnOutNorm.mask.parse
  let norm2p := L.outputNorm.mask.parse
  let qkp := L.query.mask.parse
  let vop := L.value.mask.parse
  let ffnp := L.outputDense.mask.parse
  let norm0_out_comp := extractInput norm0.out_comp norm0p.2 (some norm0p.1)
  let norm1_in_comp := extractOutput L.attnOutNorm.in_comp norm1p.2 (some norm1p.1)
  let norm1_out_comp := extractInput L.attnOutNorm.out_comp norm1p.2 (some norm1p.1)
  let norm2_in_comp := extractOutput L.outputNorm.in_comp norm2p.2 (some norm2p.1)
  let query := (norm0_out_comp.merge L.query.extract).merge
    (extractOutput L.query.compactor qkp.2 (some qkp.1))
  let key := (norm0_out_comp.merge L.key.extract).merge
    (extractOutput L.key.compactor qkp.2 none)
  let value := (norm0_out_comp.merge L.value.extract).merge
    (extractOutput L.value.compactor vop.2 (some vop.1))
  let output := ((extractInput L.attnOutDense.compactor vop.2 none).merge
    L.attnOutDense.extract).merge norm1_in_comp
  let w1 := (norm1_out_comp.merge L.intermediateDense).mergeMask ffnp.2
  let w2 := (L.outputDense.extract ffnp.2 ffnp.1).merge norm2_in_comp
  ({ query := .fused query
     key := .fused key
     value := .fused value
     attnOutDense := .fused output
     attnOutNorm := .packed (L.attnOutNorm.extract norm1p.2)
     attnResidual := some (norm0_out_comp.merge norm1_in_comp)
     intermediateDense := w1
     outputDense := .fused w2
     outputNorm := .packed (L.outputNorm.extract norm2p.2)
     outputResidual := some (norm1_out_comp.merge norm2_in_comp) },
   L.outputNorm)

/-- The layer loop of `mix`: thread the previous-normalization cursor through
the layers in order, returning the mutated layers and the final cursor. -/
def mixLayers (cursor : LayerNormC) : List CompactLayer → List Layer × LayerNormC
  | [] => ([], cursor)
  | L :: rest =>
    let p := mixLayer cursor L
    let r := mixLayers p.2 rest
    (p.1 :: r.1, r.2)

/-- Embeds `CompactorMixer.mix` lines 124–222: run the per-layer procedure,
then rebuild the embedding LayerNorm as the sequential pair (extracted
`in_comp`, reduced norm) and fuse the last normalization's `out_comp` into the
pooler dense.  The result is the mutated model state. -/
def mixState (M : CompactModel) : Model :=
  let r := mixLayers M.embLayerNorm M.layers
  let firstp := M.embLayerNorm.mask.parse
  let lastp := r.2.mask.parse
  { embLayerNorm := .packedSeq
      (extractOutput M.embLayerNorm.in_comp firstp.2 (some firstp.1))
      (M.embLayerNorm.extract firstp.2)
    layers := r.1
    poolerDense := (extractInput r.2.out_comp lastp.2 (some lastp.1)).merge M.poolerDense
    numAttentionHeads := M.numAttentionHeads }

/-- Per-layer record of the retained structural widths
(`PackedBertLayerConfig`). -/
structure PackedBertLayerConfig where
  input_dim : ℕ
  attn_output_dim : ℕ
  ffn_output_dim : ℕ
  num_heads : ℕ
  qk_dim : ℕ
  vo_dim : ℕ
  ffn_dim : ℕ
  prune_attn : Bool
  prune_ffn : Bool
deriving DecidableEq

/-- The packed architecture's configuration (`PackedBertConfig`). -/
structure PackedBertConfig where
  num_attention_heads : ℕ
  per_layer_config : List PackedBertLayerConfig
deriving DecidableEq

/-- Embeds the per-layer loop of `get_packed_bert_config` (mixer.py 40–61),
reading the retained dimensions off the model's slots: the past norm's
`packed_size` for `input_dim`, the layer norms' `packed_size`, the q/v fused
projections' `out_features` and the up-projection's `out_features`;
`prune_attn` and `prune_ffn` are hardcoded `False` (lines 57–58).  Returns
`none` when a slot still holds an original wrapped module (the function is
only ever invoked on the post-compaction model). -/
def configLayers (numHeads : ℕ) (past : PackedNorm) :
    List Layer → Option (List PackedBertLayerConfig)
  | [] => some []
  | l :: rest =>
    match l.attnOutNorm, l.outputNorm, l.query, l.value with
    | .packed n1, .packed n2, .fused wq, .fused wv =>
      (configLayers numHeads n2 rest).map (fun cs =>
        { input_dim := past.packed_size
          attn_output_dim := n1.packed_size
          ffn_output_dim := n2.packed_size
          num_heads := numHeads
          qk_dim := wq.outF
          vo_dim := wv.outF
          ffn_dim := l.intermediateDense.outF
          prune_attn := false
          prune_ffn := false } :: cs)
    | _, _, _, _ => none

/-- Embeds `get_packed_bert_config` (mixer.py 36–64): copy the head count from
the global configuration and collect the per-layer records, starting the
past-normalization cursor at the second element of the embedding LayerNorm
(line 41). -/
def getPackedConfig (m : Model) : Option PackedBertConfig :=
  match m.embLayerNorm with
  | .packedSeq _ pn =>
    (configLayers m.numAttentionHeads pn m.layers).map (fun cs =>
      { num_attention_heads := m.numAttentionHeads, per_layer_config := cs })
  | .orig _ => none

/-- A state-dictionary value: the payload stored at one dotted parameter path.
Tensor contents are abstracted into whole-sub-module payloads; only matching
by name matters to the transfer semantics. -/
inductive PVal
  | lin (l : Linear)
  | pnorm (p : PackedNorm)
  | normC (n : LayerNormC)
  | wrapA (m : LinearWithCompactorAfter)
  | wrapB (m : LinearWithCompactorBefore)
  | wrapM (m : LinearWithMaskBefore)
  | seqPair (comp : Linear) (p : PackedNorm)

/-- The payload currently held by a q/k/v slot. -/
def AttnSlot.toPVal : AttnSlot → PVal
  | .orig m => .wrapA m
  | .fused l => .lin l

/-- The payload currently held by an attention-output dense slot. -/
def OutDenseSlot.toPVal : OutDenseSlot → PVal
  | .orig m => .wrapB m
  | .fused l => .lin l

/-- The payload currently held by a feed-forward down-projection slot. -/
def FfnDenseSlot.toPVal : FfnDenseSlot → PVal
  | .orig m => .wrapM m
  | .fused l => .lin l

/-- The payload currently held by a LayerNorm slot. -/
def NormSlot.toPVal : NormSlot → PVal
  | .orig n => .normC n
  | .packed p => .pnorm p

/-- The state-dictionary entries contributed by encoder layer `i`. -/
def layerStateDict (i : ℕ) (l : Layer) : List (String × PVal) :=
  let p := "bert.encoder.layer." ++ Nat.repr i ++ "."
  [(p ++ "attention.self.query", l.query.toPVal),
   (p ++ "attention.self.key", l.key.toPVal),
   (p ++ "attention.self.value", l.value.toPVal),
   (p ++ "attention.output.dense", l.attnOutDense.toPVal),
   (p ++ "attention.output.LayerNorm", l.attnOutNorm.toPVal),
   (p ++ "intermediate.dense", PVal.lin l.intermediateDense),
   (p ++ "output.dense", l.outputDense.toPVal),
   (p ++ "output.LayerNorm", l.outputNorm.toPVal)]
  ++ (match l.attnResidual with
      | some r => [(p ++ "attention.output.residual", PVal.lin r)]
      | none => [])
  ++ (match l.outputResidual with
      | some r => [(p ++ "output.residual", PVal.lin r)]
      | none => [])

/-- The state-dictionary entries of the layers, numbered from `i`. -/
def layersStateDict (i : ℕ) : List Layer → List (String × PVal)
  | [] => []
  | l :: rest => layerStateDict i l ++ layersStateDict (i + 1) rest

/-- The full state dictionary of the live model (`model.state_dict()`). -/
def stateDict (m : Model) : List (String × PVal) :=
  [("bert.embeddings.LayerNorm",
    match m.embLayerNorm with
    | .orig n => PVal.normC n
    | .packedSeq c p => PVal.seqPair c p)]
  ++ layersStateDict 0 m.layers
  ++ [("bert.pooler.dense", PVal.lin m.poolerDense)]

/-- Modelled from the spec: the parameters of one freshly instantiated packed
layer — plain affine stages and reduced norms with default contents, sized by
the configuration; masks and compactors have no counterpart. -/
def freshLayerParams (i : ℕ) (c : PackedBertLayerConfig) : List (String × PVal) :=
  let p := "bert.encoder.layer." ++ Nat.repr i ++ "."
  let zlin : ℕ → ℕ → PVal := fun a b => .lin ⟨a, b, fun _ _ => 0, some (fun _ => 0)⟩
  let znorm : ℕ → PVal := fun a => .pnorm ⟨a, fun _ => 1, fun _ => 0⟩
  [(p ++ "attention.self.query", zlin c.input_dim c.qk_dim),
   (p ++ "attention.self.key", zlin c.input_dim c.qk_dim),
   (p ++ "attention.self.value", zlin c.input_dim c.vo_dim),
   (p ++ "attention.output.dense", zlin c.vo_dim c.attn_output_dim),
   (p ++ "attention.output.LayerNorm", znorm c.attn_output_dim),
   (p ++ "attention.output.residual", zlin c.input_dim c.attn_output_dim),
   (p ++ "intermediate.dense", zlin c.attn_output_dim c.ffn_dim),
   (p ++ "output.dense", zlin c.ffn_dim c.ffn_output_dim),
   (p ++ "output.LayerNorm", znorm c.ffn_output_dim),
   (p ++ "output.residual", zlin c.attn_output_dim c.ffn_output_dim)]

/-- The fresh packed parameters of the layers, numbered from `i`. -/
def factoryParamsAux (i : ℕ) : List PackedBertLayerConfig → List (String × PVal)
  | [] => []
  | c :: rest => freshLayerParams i c ++ factoryParamsAux (i + 1) rest

/-- Modelled from the spec: the full fresh parameter set of the packed
architecture instantiated from a configuration. -/
def factoryParams (cfg : PackedBertConfig) : List (String × PVal) :=
  [("bert.embeddings.LayerNorm",
    PVal.seqPair ⟨0, 0, fun _ _ => 0, some (fun _ => 0)⟩ ⟨0, fun _ => 1, fun _ => 0⟩)]
  ++ factoryParamsAux 0 cfg.per_layer_config
  ++ [("bert.pooler.dense", PVal.lin ⟨0, 0, fun _ _ => 0, some (fun _ => 0)⟩)]

/-- Modelled from the spec: the permissive transfer — each target parameter
takes the source value of the same name when one exists and keeps its own
value otherwise; source-only names are ignored. -/
def applyStateDict (target source : List (String × PVal)) : List (String × PVal) :=
  target.map (fun p => (p.1, (source.lookup p.1).getD p.2))

/-- Modelled from the spec: `load_state_dict` — with `strict = true` any
missing or unexpected key is an error; with `strict = false` the transfer is
the permissive copy-what-matches-by-name. -/
def loadStateDict (strict : Bool) (target source : List (String × PVal)) :
    Except String (List (String × PVal)) :=
  if strict
      && (target.any (fun p => (source.lookup p.1).isNone)
        || source.any (fun p => (target.lookup p.1).isNone)) then
    Except.error "state dict key mismatch"
  else
    Except.ok (applyStateDict target source)

/-- The packed model: its derived configuration and its named parameters. -/
structure PackedModel where
  config : PackedBertConfig
  params : List (String × PVal)

/-- Modelled from the spec: `self.factory(p_config)` — instantiate the smaller
architecture from the derived configuration, with fresh parameters. -/
def factory (cfg : PackedBertConfig) : PackedModel :=
  { config := cfg, params := factoryParams cfg }

/-- Embeds `CompactorMixer.mix` end to end (mixer.py 122–228): mutate the
model state layer by layer, derive the packed configuration from the mutated
model, instantiate the packed model and load the mutated model's state dict
into it non-strictly; the mutated input state is returned alongside the packed
model that `mix` returns. -/
def mixModel (M : CompactModel) : Model × Option PackedModel :=
  let st := mixState M
  match getPackedConfig st with
  | some cfg =>
    (st, some { config := cfg
                params := applyStateDict (factory cfg).params (stateDict st) })
  | none => (st, none)

/-- A zero-sized placeholder transform, used as the default of projections. -/
def dummyLinear : Linear := ⟨0, 0, fun _ _ => 0, none⟩

/-- The plain transform held by a q/k/v slot (placeholder if still wrapped). -/
def AttnSlot.linOf : AttnSlot → Linear
  | .fused l => l
  | .orig _ => dummyLinear

/-- The `n × n` identity transform, carrying no bias. -/
def idLin (n : ℕ) : Linear := ⟨n, n, fun i j => if i = j then 1 else 0, none⟩

/-- A mask over `n` features keeping everything with gate value 1. -/
def onesMask (n : ℕ) : Mask := ⟨n, fun _ => 1⟩

/-- The attention-query chain exactly as claim C4 states it: beginning with
`norm0.out_comp.extract("output", norm0_idx, norm0_val)` (row selection of the
compactor weight), followed by the base query transform and the query
compactor's output extraction. -/
def specQueryChainC4 (norm0 : LayerNormC) (L : CompactLayer) : Linear :=
  ((extractOutput norm0.out_comp (norm0.mask.parse).2 (some (norm0.mask.parse).1)).merge
    L.query.extract).merge
    (extractOutput L.query.compactor (L.query.mask.parse).2 (some (L.query.mask.parse).1))

/-- A full-keep mask over 2 features with gate values `[2, 1]`. -/
def c4MaskVals : Mask := ⟨2, fun i => if i = 0 then 2 else 1⟩

/-- A mask over 2 features keeping only position 0. -/
def c4MaskPartial : Mask := ⟨2, fun i => if i = 0 then 1 else 0⟩

/-- A non-symmetric compactor weight (`[[0,1],[0,0]]`), so that row selection
and column selection scaled by unequal gate values disagree. -/
def c4OutComp : Linear := ⟨2, 2, fun i j => if i = 0 ∧ j = 1 then 1 else 0, none⟩

/-- A previous-layer normalization whose `out_comp` is `c4OutComp` and whose
mask keeps both features with values `[2, 1]`. -/
def c4NormVals : LayerNormC := ⟨2, fun _ => 1, fun _ => 0, c4MaskVals, idLin 2, c4OutComp⟩

/-- A previous-layer normalization whose mask keeps only feature 0. -/
def c4NormPartial : LayerNormC := ⟨2, fun _ => 1, fun _ => 0, c4MaskPartial, idLin 2, c4OutComp⟩

/-- An identity-weighted wrapped projection with a full-keep unit mask. -/
def c4Wrap : LinearWithCompactorAfter := ⟨idLin 2, idLin 2, onesMask 2⟩

/-- An identity layer normalization bundle with identity compactors. -/
def c4NormPlain : LayerNormC := ⟨2, fun _ => 1, fun _ => 0, onesMask 2, idLin 2, idLin 2⟩

/-- An all-identity encoder layer with full-keep unit masks everywhere. -/
def c4Layer : CompactLayer :=
  ⟨c4Wrap, c4Wrap, c4Wrap, ⟨idLin 2, idLin 2⟩, c4NormPlain, idLin 2,
   ⟨idLin 2, onesMask 2⟩, c4NormPlain⟩

/-- Claim C4 counterexample: the code passes `"input"`, not `"output"`, to
`norm0.out_comp.extract` (mixer.py line 155).  With a mask keeping 1 of 2
features, the fused query transform's input width is the kept count 1 (column
selection, a `K→D` first element) while the chain the claim states — beginning
with the output-side extraction, a `D→K` transform — has input width 2; and
with a full-keep mask of gate values `[2,1]` and the non-symmetric compactor
weight `[[0,1],[0,0]]`, the fused query weight entry `(0,1)` is 1 (column
scaling) while the claimed chain yields 2 (row scaling). -/
theorem c4_counterexample :
    (mixLayer c4NormPartial c4Layer).1.query.linOf.inF
        ≠ (specQueryChainC4 c4NormPartial c4Layer).inF
    ∧ (mixLayer c4NormVals c4Layer).1.query.linOf.weight 0 1
        ≠ (specQueryChainC4 c4NormVals c4Layer).weight 0 1 := by
  constructor
  · decide
  · have hp : c4MaskVals.parse = ([2, 1], [0, 1]) := by decide
    have hq : (onesMask 2).parse = ([1, 1], [0, 1]) := by decide
    simp only [mixLayer, specQueryChainC4, AttnSlot.linOf, c4NormVals, c4Layer, c4Wrap,
      LinearWithCompactorAfter.extract, hp, hq]
    simp [Linear.merge, extractOutput, extractInput, extractScale, idLin, c4OutComp,
      Finset.sum_range_succ]

/-- Claim C4 (amended): the chain fused into the attention query transform
begins with `norm0.out_comp` extracted on its "input" side — column selection
at `norm0_idx` with each selected column scaled by the matching `norm0_val`
entry, producing a `K→D` transform — and likewise the feed-forward
up-projection chain begins with `norm1.out_comp` extracted on its "input" side
at `norm1_idx` scaled by `norm1_val`. -/
theorem c4_chain_heads (norm0 : LayerNormC) (L : CompactLayer) :
    (mixLayer norm0 L).1.query.linOf
      = ((extractInput norm0.out_comp (norm0.mask.parse).2
            (some (norm0.mask.parse).1)).merge L.query.extract).merge
          (extractOutput L.query.compactor (L.query.mask.parse).2
            (some (L.query.mask.parse).1))
    ∧ (mixLayer norm0 L).1.intermediateDense
      = ((extractInput L.attnOutNorm.out_comp (L.attnOutNorm.mask.parse).2
            (some (L.attnOutNorm.mask.parse).1)).merge L.intermediateDense).mergeMask
          (L.outputDense.mask.parse).2
    ∧ (extractInput norm0.out_comp (norm0.mask.parse).2
        (some (norm0.mask.parse).1)).inF = (norm0.mask.parse).2.length
    ∧ (extractInput norm0.out_comp (norm0.mask.parse).2
        (some (norm0.mask.parse).1)).outF = norm0.out_comp.outF
    ∧ ∀ i j, (extractInput norm0.out_comp (norm0.mask.parse).2
        (some (norm0.mask.parse).1)).weight i j
          = norm0.out_comp.weight i ((norm0.mask.parse).2.getD j 0)
            * extractScale (some (norm0.mask.parse).1) j :=
  ⟨rfl, rfl, rfl, rfl, fun _ _ => rfl⟩

theorem merge_extractOutput_scale_weight (P C : Linear) (idx : List ℕ) (vals : List ℚ)
    (i j : ℕ) :
    (P.merge (extractOutput C idx (some vals))).weight i j
      = extractScale (some vals) i * (P.merge (extractOutput C idx none)).weight i j := by
  show (∑ k in Finset.range C.inF,
      (extractScale (some vals) i * C.weight (idx.getD i 0) k) * P.weight k j)
    = extractScale (some vals) i * ∑ k in Finset.range C.inF,
      (extractScale none i * C.weight (idx.getD i 0) k) * P.weight k j
  rw [Finset.mul_sum]
  exact Finset.sum_congr rfl fun k _ => by simp [extractScale]; ring

theorem Linear.apply_getD (l : Linear) (x : ℕ → ℚ) (i : ℕ) :
    l.apply x i = (∑ j in Finset.range l.inF, l.weight i j * x j)
      + l.bias.getD (fun _ => 0) i := by
  cases h : l.bias <;> simp [Linear.apply, h]

theorem merge_extractOutput_scale (P C : Linear) (idx : List ℕ) (vals : List ℚ)
    (x : ℕ → ℚ) (i : ℕ) :
    (P.merge (extractOutput C idx (some vals))).apply x i
      = extractScale (some vals) i * (P.merge (extractOutput C idx none)).apply x i := by
  have hw := fun j => merge_extractOutput_scale_weight P C idx vals i j
  have hbias : (P.merge (extractOutput C idx (some vals))).bias.getD (fun _ => 0) i
      = extractScale (some vals) i
        * (P.merge (extractOutput C idx none)).bias.getD (fun _ => 0) i := by
    cases hP : P.bias with
    | none =>
      have h1 : ∀ E : Linear, (P.merge E).bias = none := by
        intro E; simp [Linear.merge, hP]
      rw [h1, h1]
      simp
    | some bP =>
      cases hC : C.bias with
      | none =>
        have h1 : ∀ o, (P.merge (extractOutput C idx o)).bias = none := by
          intro o; simp [Linear.merge, extractOutput, hC]
        rw [h1, h1]
        simp
      | some bC =>
        have hEb : ∀ o, (extractOutput C idx o).bias
            = some (fun k => extractScale o k * bC (idx.getD k 0)) := by
          intro o; simp [extractOutput, hC]
        have hv := fun o => P.merge_bias_val (extractOutput C idx o) bP
          (fun k => extractScale o k * bC (idx.getD k 0)) hP (hEb o) i
        rw [hv (some vals), hv none]
        show (∑ k in Finset.range C.inF,
            (extractScale (some vals) i * C.weight (idx.getD i 0) k) * bP k)
            + extractScale (some vals) i * bC (idx.getD i 0)
          = extractScale (some vals) i * ((∑ k in Finset.range C.inF,
              (extractScale none i * C.weight (idx.getD i 0) k) * bP k)
            + extractScale none i * bC (idx.getD i 0))
        rw [mul_add, Finset.mul_sum]
        congr 1
        · exact Finset.sum_congr rfl fun k _ => by simp [extractScale]; ring
        · simp [extractScale]
  rw [Linear.apply_getD, Linear.apply_getD, mul_add, hbias]
  congr 1
  show (∑ j in Finset.range P.inF,
      (P.merge (extractOutput C idx (some vals))).weight i j * x j)
    = extractScale (some vals) i * ∑ j in Finset.range P.inF,
      (P.merge (extractOutput C idx none)).weight i j * x j
  rw [Finset.mul_sum]
  exact Finset.sum_congr rfl fun j _ => by rw [hw j]; ring

/-- Claim C5: the fused key transform is built from the same kept-index set
`qk_idx` as the query transform — parsed from the QUERY module's mask — but
its compactor extraction carries no scaling values; the constructions are
otherwise identical (previous-norm `out_comp` input-extraction, base weight,
compactor output-extraction at `qk_idx`), so whenever the key module's base
and compactor weights coincide with the query module's, every row of the fused
query output equals the matching `qk_val` gate value times the fused key
output, on every input. -/
theorem c5_key_unscaled (norm0 : LayerNormC) (L : CompactLayer) :
    (mixLayer norm0 L).1.key.linOf
      = ((extractInput norm0.out_comp (norm0.mask.parse).2
            (some (norm0.mask.parse).1)).merge L.key.extract).merge
          (extractOutput L.key.compactor (L.query.mask.parse).2 none)
    ∧ (L.key.base = L.query.base → L.key.compactor = L.query.compactor →
        ∀ x i, (mixLayer norm0 L).1.query.linOf.apply x i
          = extractScale (some (L.query.mask.parse).1) i
              * (mixLayer norm0 L).1.key.linOf.apply x i) := by
  refine ⟨rfl, fun hbase hcomp x i => ?_⟩
  show (((extractInput norm0.out_comp (norm0.mask.parse).2
      (some (norm0.mask.parse).1)).merge L.query.extract).merge
        (extractOutput L.query.compactor (L.query.mask.parse).2
          (some (L.query.mask.parse).1))).apply x i
    = extractScale (some (L.query.mask.parse).1) i
        * (((extractInput norm0.out_comp (norm0.mask.parse).2
            (some (norm0.mask.parse).1)).merge L.key.extract).merge
              (extractOutput L.key.compactor (L.query.mask.parse).2 none)).apply x i
  rw [show L.key.extract = L.query.extract from hbase, hcomp]
  exact merge_extractOutput_scale _ _ _ _ x i

/-- A query/key module for C5's witness whose compactor is `[[0,1],[0,0]]`
with a bias, behind a full-keep mask of gate values `[2, 1]`. -/
def c5Wrap : LinearWithCompactorAfter :=
  ⟨idLin 2, ⟨2, 2, fun i j => if i = 0 ∧ j = 1 then 1 else 0, some (fun i => (i : ℚ))⟩,
   c4MaskVals⟩

/-- The concrete layer of C5's witness: key and query modules coincide. -/
def c5Layer : CompactLayer :=
  ⟨c5Wrap, c5Wrap, c5Wrap, ⟨idLin 2, idLin 2⟩, c4NormPlain, idLin 2,
   ⟨idLin 2, onesMask 2⟩, c4NormPlain⟩

theorem c5_witness :
    (mixLayer c4NormPlain c5Layer).1.query.linOf.apply (fun _ => 1) 0
      = extractScale (some ((c5Layer.query.mask.parse)).1) 0
          * (mixLayer c4NormPlain c5Layer).1.key.linOf.apply (fun _ => 1) 0 :=
  (c5_key_unscaled c4NormPlain c5Layer).2 rfl rfl (fun _ => 1) 0

/-- Whether a q/k/v slot still holds a fused plain transform. -/
def AttnSlot.isFused : AttnSlot → Bool
  | .fused _ => true
  | .orig _ => false

/-- Whether an attention-output dense slot holds a fused plain transform. -/
def OutDenseSlot.isFused : OutDenseSlot → Bool
  | .fused _ => true
  | .orig _ => false

/-- Whether a feed-forward dense slot holds a fused plain transform. -/
def FfnDenseSlot.isFused : FfnDenseSlot → Bool
  | .fused _ => true
  | .orig _ => false

/-- Whether a LayerNorm slot holds a reduced (packed) normalization. -/
def NormSlot.isPacked : NormSlot → Bool
  | .packed _ => true
  | .orig _ => false

/-- Whether the embedding LayerNorm slot holds the post-compaction pair. -/
def EmbNormSlot.isPackedSeq : EmbNormSlot → Bool
  | .packedSeq _ _ => true
  | .orig _ => false

/-- Whether every slot of a layer has been replaced by compaction output. -/
def Layer.allFused (l : Layer) : Bool :=
  l.query.isFused && l.key.isFused && l.value.isFused && l.attnOutDense.isFused
    && l.attnOutNorm.isPacked && l.outputDense.isFused && l.outputNorm.isPacked
    && l.attnResidual.isSome && l.outputResidual.isSome

/-- Whether the first layer's query slot still holds its original module. -/
def queryFusedAt0 (m : Model) : Bool :=
  match m.layers with
  | l :: _ => l.query.isFused
  | [] => false

/-- A one-layer model used by the C6 counterexample. -/
def c6Model : CompactModel := ⟨c4NormPlain, [c4Layer], idLin 2, 2⟩

/-- Claim C6 counterexample: `mix` does not consume the input model read-only —
it reassigns the model's sub-module slots in place.  On a concrete one-layer
model, the state after mixing differs from the input model's state: the first
layer's query slot holds a fused plain transform where the input model held
the original wrapped module. -/
theorem c6_counterexample : mixState c6Model ≠ CompactModel.toModel c6Model := by
  intro h
  exact absurd (congrArg queryFusedAt0 h) (by decide)

theorem mixLayers_allFused (cursor : LayerNormC) (Ls : List CompactLayer) :
    ∀ l ∈ (mixLayers cursor Ls).1, l.allFused = true := by
  induction Ls generalizing cursor with
  | nil => intro l hl; simp [mixLayers] at hl
  | cons L rest ih =>
    intro l hl
    rcases List.mem_cons.mp hl with h | h
    · subst h; rfl
    · exact ih (mixLayer cursor L).2 l h

/-- Claim C6 (amended): `mix()` does mutate the input model's object graph in
place: after it runs, every sub-module slot of every encoder layer of the
input model holds a freshly fused plain transform or reduced normalization
(with both residual transforms materialized), and the embedding LayerNorm slot
holds the sequential pair assembled at the boundary — the fused transforms are
new objects, but they replace the original wrapped sub-modules inside the
input model rather than leaving it unchanged.  The original modules' own
weights are never written through, only the model's references to them. -/
theorem c6_mix_mutates (M : CompactModel) :
    (∀ l ∈ (mixState M).layers, l.allFused = true)
    ∧ (mixState M).embLayerNorm.isPackedSeq = true :=
  ⟨fun l hl => mixLayers_allFused M.embLayerNorm M.layers l hl, rfl⟩

theorem c6_witness :
    ((mixLayer c4NormPlain c4Layer).1).allFused = true
    ∧ (mixState c6Model).embLayerNorm.isPackedSeq = true :=
  ⟨(c6_mix_mutates c6Model).1 (mixLayer c4NormPlain c4Layer).1 (List.mem_cons_self _ _),
   (c6_mix_mutates c6Model).2⟩

/-- A placeholder mask. -/
def dummyMask : Mask := ⟨0, fun _ => 0⟩

/-- A placeholder wrapped normalization. -/
def dummyNormC : LayerNormC := ⟨0, fun _ => 0, fun _ => 0, dummyMask, dummyLinear, dummyLinear⟩

/-- A placeholder compactor-wrapped projection. -/
def dummyWrapA : LinearWithCompactorAfter := ⟨dummyLinear, dummyLinear, dummyMask⟩

/-- A placeholder encoder layer, used as the default of list lookups. -/
def dummyCompactLayer : CompactLayer :=
  ⟨dummyWrapA, dummyWrapA, dummyWrapA, ⟨dummyLinear, dummyLinear⟩, dummyNormC,
   dummyLinear, ⟨dummyLinear, dummyMask⟩, dummyNormC⟩

/-- A placeholder per-layer configuration, used as the default of lookups. -/
def dummyCfg : PackedBertLayerConfig := ⟨0, 0, 0, 0, 0, 0, 0, false, false⟩

/-- The per-layer configuration record that dimension accounting predicts from
the masks alone: every retained width is the kept-index count of the
corresponding mask's parse, with the preceding normalization's mask giving the
input width. -/
def layerWidths (precedingMask : Mask) (numHeads : ℕ) (L : CompactLayer) :
    PackedBertLayerConfig :=
  { input_dim := (precedingMask.parse).2.length
    attn_output_dim := (L.attnOutNorm.mask.parse).2.length
    ffn_output_dim := (L.outputNorm.mask.parse).2.length
    num_heads := numHeads
    qk_dim := (L.query.mask.parse).2.length
    vo_dim := (L.value.mask.parse).2.length
    ffn_dim := (L.outputDense.mask.parse).2.length
    prune_attn := false
    prune_ffn := false }

/-- The mask-predicted configuration records of a run of layers, threading the
preceding-normalization cursor. -/
def widthsList (numHeads : ℕ) (cursor : LayerNormC) :
    List CompactLayer → List PackedBertLayerConfig
  | [] => []
  | L :: rest => layerWidths cursor.mask numHeads L :: widthsList numHeads L.outputNorm rest

theorem configLayers_mixLayers (numHeads : ℕ) (Ls : List CompactLayer) :
    ∀ (cursor : LayerNormC) (past : PackedNorm),
      past.packed_size = (cursor.mask.parse).2.length →
      configLayers numHeads past (mixLayers cursor Ls).1
        = some (widthsList numHeads cursor Ls) := by
  induction Ls with
  | nil => intro cursor past hp; rfl
  | cons L rest ih =>
    intro cursor past hp
    have hstep : configLayers numHeads past (mixLayers cursor (L :: rest)).1
        = (configLayers numHeads (L.outputNorm.extract (L.outputNorm.mask.parse).2)
            (mixLayers L.outputNorm rest).1).map (fun cs =>
              { input_dim := past.packed_size
                attn_output_dim := (L.attnOutNorm.mask.parse).2.length
                ffn_output_dim := (L.outputNorm.mask.parse).2.length
                num_heads := numHeads
                qk_dim := (L.query.mask.parse).2.length
                vo_dim := (L.value.mask.parse).2.length
                ffn_dim := (L.outputDense.mask.parse).2.length
                prune_attn := false
                prune_ffn := false } :: cs) := rfl
    rw [hstep, ih L.outputNorm (L.outputNorm.extract (L.outputNorm.mask.parse).2) rfl]
    simp [widthsList, layerWidths, hp]

theorem getPackedConfig_mixState (M : CompactModel) :
    getPackedConfig (mixState M)
      = some { num_attention_heads := M.numAttentionHeads
               per_layer_config :=
                 widthsList M.numAttentionHeads M.embLayerNorm M.layers } := by
  show (configLayers M.numAttentionHeads
      (M.embLayerNorm.extract (M.embLayerNorm.mask.parse).2)
      (mixLayers M.embLayerNorm M.layers).1).map _ = _
  rw [configLayers_mixLayers M.numAttentionHeads M.layers M.embLayerNorm
    (M.embLayerNorm.extract (M.embLayerNorm.mask.parse).2) rfl]
  rfl

theorem widthsList_getD (numHeads : ℕ) (Ls : List CompactLayer) :
    ∀ (cursor : LayerNormC) (i : ℕ), i < Ls.length →
      (widthsList numHeads cursor Ls).getD i dummyCfg
        = layerWidths
            (if i = 0 then cursor.mask
             else (Ls.getD (i - 1) dummyCompactLayer).outputNorm.mask)
            numHeads (Ls.getD i dummyCompactLayer) := by
  induction Ls with
  | nil => intro cursor i hi; simp at hi
  | cons L rest ih =>
    intro cursor i hi
    cases i with
    | zero => simp [widthsList]
    | succ n =>
      have hn : n < rest.length := by simpa using hi
      simp only [widthsList, List.getD_cons_succ]
      rw [ih L.outputNorm n hn]
      cases n with
      | zero => simp
      | succ m => simp

/-- Claim C7: the Packed Layer Configuration computed after compaction records,
for every layer, retained widths equal to the kept-index counts of the
corresponding masks' `parse()`: `input_dim` is the kept count of the preceding
normalization's mask (the embedding norm for layer 0, else the previous
layer's output norm), `attn_output_dim` / `ffn_output_dim` are the kept counts
of the post-attention / post-feed-forward normalization masks, `qk_dim` /
`vo_dim` are the kept counts of the query and value projection masks, and
`ffn_dim` is the kept count of the feed-forward output-projection mask. -/
theorem c7_dimension_accounting (M : CompactModel) (cfg : PackedBertConfig)
    (hcfg : getPackedConfig (mixState M) = some cfg) :
    ∀ i, i < M.layers.length →
      ((cfg.per_layer_config.getD i dummyCfg).input_dim
          = ((if i = 0 then M.embLayerNorm.mask
              else (M.layers.getD (i - 1) dummyCompactLayer).outputNorm.mask).parse).2.length
        ∧ (cfg.per_layer_config.getD i dummyCfg).attn_output_dim
          = ((M.layers.getD i dummyCompactLayer).attnOutNorm.mask.parse).2.length
        ∧ (cfg.per_layer_config.getD i dummyCfg).ffn_output_dim
          = ((M.layers.getD i dummyCompactLayer).outputNorm.mask.parse).2.length
        ∧ (cfg.per_layer_config.getD i dummyCfg).qk_dim
          = ((M.layers.getD i dummyCompactLayer).query.mask.parse).2.length
        ∧ (cfg.per_layer_config.getD i dummyCfg).vo_dim
          = ((M.layers.getD i dummyCompactLayer).value.mask.parse).2.length
        ∧ (cfg.per_layer_config.getD i dummyCfg).ffn_dim
          = ((M.layers.getD i dummyCompactLayer).outputDense.mask.parse).2.length) := by
  intro i hi
  have h1 := getPackedConfig_mixState M
  rw [hcfg] at h1
  have h2 := Option.some.inj h1
  have h3 : cfg.per_layer_config
      = widthsList M.numAttentionHeads M.embLayerNorm M.layers := by rw [h2]
  rw [h3, widthsList_getD M.numAttentionHeads M.layers M.embLayerNorm i hi]
  exact ⟨rfl, rfl, rfl, rfl, rfl, rfl⟩

/-- The configuration produced for the all-identity one-layer model. -/
def c7Cfg : PackedBertConfig :=
  { num_attention_heads := 2
    per_layer_config := [⟨2, 2, 2, 2, 2, 2, 2, false, false⟩] }

/-- The per-layer `prune_ffn` flag the model's derived configuration records
at layer `i` (and `none` if no configuration can be derived). -/
def pruneFfnAt (m : Model) (i : ℕ) : Option Bool :=
  (getPackedConfig m).map (fun cfg => (cfg.per_layer_config.getD i dummyCfg).prune_ffn)

/-- A mask whose gates are all zero: its kept-index set is empty. -/
def c8FfnMask : Mask := ⟨2, fun _ => 0⟩

/-- A layer whose feed-forward output-projection mask keeps nothing: its
feed-forward sub-block is pruned away entirely. -/
def c8Layer : CompactLayer := { c4Layer with outputDense := ⟨idLin 2, c8FfnMask⟩ }

/-- A one-layer model whose feed-forward sub-block is pruned away entirely. -/
def c8Model : CompactModel := ⟨c4NormPlain, [c8Layer], idLin 2, 2⟩

/-- Claim C8 counterexample: on a model whose feed-forward output-projection
mask keeps no index — the feed-forward sub-block is pruned away entirely — the
configuration produced after compaction still records `prune_ffn = False`
(`get_packed_bert_config` hardcodes both flags to `False`, mixer.py lines
57–58), so `prune_ffn` is not true exactly when the sub-block was pruned away. -/
theorem c8_counterexample :
    (c8Layer.outputDense.mask.parse).2 = []
    ∧ pruneFfnAt (mixState c8Model) 0 = some false := by
  constructor <;> decide

theorem configLayers_flags (numHeads : ℕ) (ls : List Layer) :
    ∀ (past : PackedNorm) (cs : List PackedBertLayerConfig),
      configLayers numHeads past ls = some cs →
      ∀ lc ∈ cs, lc.prune_attn = false ∧ lc.prune_ffn = false := by
  induction ls with
  | nil =>
    intro past cs h lc hlc
    rw [show configLayers numHeads past [] = some [] from rfl] at h
    rw [← Option.some.inj h] at hlc
    simp at hlc
  | cons l rest ih =>
    intro past cs h lc hlc
    cases h1 : l.attnOutNorm <;> cases h2 : l.outputNorm <;>
      cases h3 : l.query <;> cases h4 : l.value <;>
      simp only [configLayers, h1, h2, h3, h4] at h <;>
      try exact Option.noConfusion h
    rw [Option.map_eq_some'] at h
    obtain ⟨cs', hcs', hcons⟩ := h
    rw [← hcons] at hlc
    rcases List.mem_cons.mp hlc with h | h
    · subst h; exact ⟨rfl, rfl⟩
    · exact ih _ cs' hcs' lc h

/-- Claim C8 (amended): the booleans `prune_attn` and `prune_ffn` of every
per-layer record in the Packed Layer Configuration are always `False` —
`get_packed_bert_config` hardcodes them regardless of whether a sub-block was
pruned away entirely. -/
theorem c8_flags_always_false (m : Model) (cfg : PackedBertConfig)
    (h : getPackedConfig m = some cfg) :
    ∀ lc ∈ cfg.per_layer_config, lc.prune_attn = false ∧ lc.prune_ffn = false := by
  cases he : m.embLayerNorm with
  | orig n =>
    simp only [getPackedConfig, he] at h
    exact Option.noConfusion h
  | packedSeq comp pn =>
    simp only [getPackedConfig, he, Option.map_eq_some'] at h
    obtain ⟨cs, hcs, hval⟩ := h
    intro lc hlc
    have hper : cfg.per_layer_config = cs := by rw [← hval]
    rw [hper] at hlc
    exact configLayers_flags m.numAttentionHeads m.layers pn cs hcs lc hlc

/-- The configuration record produced for the C8 model's single layer. -/
def c8Cfg : PackedBertConfig :=
  { num_attention_heads := 2
    per_layer_config := [⟨2, 2, 2, 2, 2, 2, 0, false, false⟩] }

theorem c8_witness :
    (⟨2, 2, 2, 2, 2, 2, 0, false, false⟩ : PackedBertLayerConfig).prune_attn = false
    ∧ (⟨2, 2, 2, 2, 2, 2, 0, false, false⟩ : PackedBertLayerConfig).prune_ffn = false :=
  c8_flags_always_false (mixState c8Model) c8Cfg (by decide)
    ⟨2, 2, 2, 2, 2, 2, 0, false, false⟩ (by decide)

theorem c7_witness :
    (c7Cfg.per_layer_config.getD 0 dummyCfg).input_dim
      = ((if 0 = 0 then c6Model.embLayerNorm.mask
          else (c6Model.layers.getD (0 - 1) dummyCompactLayer).outputNorm.mask).parse).2.length
    ∧ (c7Cfg.per_layer_config.getD 0 dummyCfg).attn_output_dim
      = ((c6Model.layers.getD 0 dummyCompactLayer).attnOutNorm.mask.parse).2.length
    ∧ (c7Cfg.per_layer_config.getD 0 dummyCfg).ffn_output_dim
      = ((c6Model.layers.getD 0 dummyCompactLayer).outputNorm.mask.parse).2.length
    ∧ (c7Cfg.per_layer_config.getD 0 dummyCfg).qk_dim
      = ((c6Model.layers.getD 0 dummyCompactLayer).query.mask.parse).2.length
    ∧ (c7Cfg.per_layer_config.getD 0 dummyCfg).vo_dim
      = ((c6Model.layers.getD 0 dummyCompactLayer).value.mask.parse).2.length
    ∧ (c7Cfg.per_layer_config.getD 0 dummyCfg).ffn_dim
      = ((c6Model.layers.getD 0 dummyCompactLayer).outputDense.mask.parse).2.length :=
  c7_dimension_accounting c6Model c7Cfg (by decide) 0 (by decide)

theorem applyStateDict_lookup_none (t s : List (String × PVal)) (n : String) :
    t.lookup n = none → (applyStateDict t s).lookup n = none := by
  induction t with
  | nil => intro h; rfl
  | cons p t' ih =>
    obtain ⟨a, v⟩ := p
    intro h
    cases hb : (n == a) with
    | true =>
      rw [show List.lookup n ((a, v) :: t') = some v from by simp [List.lookup, hb]] at h
      exact Option.noConfusion h
    | false =>
      have h' : t'.lookup n = none := by
        rw [show List.lookup n ((a, v) :: t') = t'.lookup n from by
          simp [List.lookup, hb]] at h
        exact h
      show List.lookup n ((a, (s.lookup a).getD v) :: applyStateDict t' s) = none
      rw [show List.lookup n ((a, (s.lookup a).getD v) :: applyStateDict t' s)
          = (applyStateDict t' s).lookup n from by simp [List.lookup, hb]]
      exact ih h'

theorem applyStateDict_keeps_unmatched (t s : List (String × PVal)) (p : String × PVal)
    (hp : p ∈ t) (hs : s.lookup p.1 = none) : p ∈ applyStateDict t s := by
  have h := List.mem_map_of_mem (fun q : String × PVal => (q.1, (s.lookup q.1).getD q.2)) hp
  simpa [applyStateDict, hs] using h

theorem mixModel_returns (M : CompactModel) :
    (mixModel M).2 = some
      { config := { num_attention_heads := M.numAttentionHeads
                    per_layer_config :=
                      widthsList M.numAttentionHeads M.embLayerNorm M.layers }
        params := applyStateDict
          (factoryParams
            { num_attention_heads := M.numAttentionHeads
              per_layer_config :=
                widthsList M.numAttentionHeads M.embLayerNorm M.layers })
          (stateDict (mixState M)) } := by
  show ((match getPackedConfig (mixState M) with
    | some cfg =>
      (mixState M, some { config := cfg
                          params := applyStateDict (factory cfg).params
                            (stateDict (mixState M)) })
    | none => (mixState M, none) : Model × Option PackedModel)).2 = _
  rw [getPackedConfig_mixState M]
  rfl

/-- Claim C9: the weight transfer of model reassembly is permissive — for every
source state dictionary, the non-strict load never raises: it returns the
target parameter list where each name takes the source value when the source
has that name; a source name with no match in the target is skipped (it does
not appear in the result), a target parameter absent from the source keeps its
fresh value, and `mix()` returns the packed model built this way from the
configuration derived off the mutated model. -/
theorem c9_permissive_transfer :
    (∀ target source : List (String × PVal),
        loadStateDict false target source = Except.ok (applyStateDict target source))
    ∧ (∀ (target source : List (String × PVal)) (n : String),
        target.lookup n = none → (applyStateDict target source).lookup n = none)
    ∧ (∀ (target source : List (String × PVal)) (p : String × PVal),
        p ∈ target → source.lookup p.1 = none → p ∈ applyStateDict target source)
    ∧ (∀ M : CompactModel, (mixModel M).2 = some
        { config := { num_attention_heads := M.numAttentionHeads
                      per_layer_config :=
                        widthsList M.numAttentionHeads M.embLayerNorm M.layers }
          params := applyStateDict
            (factoryParams
              { num_attention_heads := M.numAttentionHeads
                per_layer_config :=
                  widthsList M.numAttentionHeads M.embLayerNorm M.layers })
            (stateDict (mixState M)) }) :=
  ⟨fun _ _ => rfl,
   fun t s n h => applyStateDict_lookup_none t s n h,
   fun t s p hp hs => applyStateDict_keeps_unmatched t s p hp hs,
   fun M => mixModel_returns M⟩

/-- The target dictionary of C9's witness: one fresh pooler parameter. -/
def c9Target : List (String × PVal) := [("pooler.dense", PVal.lin dummyLinear)]

/-- The source dictionary of C9's witness: one mask parameter with no
counterpart in the packed target. -/
def c9Source : List (String × PVal) := [("mask.gates", PVal.lin (idLin 2))]

theorem c9_witness :
    loadStateDict false c9Target c9Source = Except.ok (applyStateDict c9Target c9Source)
    ∧ (applyStateDict c9Target c9Source).lookup "mask.gates" = none
    ∧ ("pooler.dense", PVal.lin dummyLinear) ∈ applyStateDict c9Target c9Source
    ∧ (mixModel c6Model).2 = some
        { config := { num_attention_heads := c6Model.numAttentionHeads
                      per_layer_config :=
                        widthsList c6Model.numAttentionHeads c6Model.embLayerNorm
                          c6Model.layers }
          params := applyStateDict
            (factoryParams
              { num_attention_heads := c6Model.numAttentionHeads
                per_layer_config :=
                  widthsList c6Model.numAttentionHeads c6Model.embLayerNorm
                    c6Model.layers })
            (stateDict (mixState c6Model)) } :=
  ⟨c9_permissive_transfer.1 c9Target c9Source,
   c9_permissive_transfer.2.1 c9Target c9Source "mask.gates" rfl,
   c9_permissive_transfer.2.2.1 c9Target c9Source ("pooler.dense", PVal.lin dummyLinear)
     (List.mem_cons_self _ _) rfl,
   c9_permissive_transfer.2.2.2 c6Model⟩

/-- Two encoder layers that agree everywhere except possibly on the key
module's Feature Mask. -/
def LayerEqExceptKeyMask (a b : CompactLayer) : Prop :=
  a = { b with key := { b.key with mask := a.key.mask } }

/-- Two trained models that agree everywhere except possibly on their layers'
key modules' Feature Masks. -/
def ModelEqExceptKeyMasks (a b : CompactModel) : Prop :=
  a.embLayerNorm = b.embLayerNorm ∧ a.poolerDense = b.poolerDense
    ∧ a.numAttentionHeads = b.numAttentionHeads
    ∧ List.Forall₂ LayerEqExceptKeyMask a.layers b.layers

theorem mixLayer_key_mask_irrelevant (c : LayerNormC) (L : CompactLayer) (m : Mask) :
    mixLayer c { L with key := { L.key with mask := m } } = mixLayer c L := rfl

theorem mixLayers_key_mask_irrelevant (Ls₁ Ls₂ : List CompactLayer)
    (h : List.Forall₂ LayerEqExceptKeyMask Ls₁ Ls₂) :
    ∀ c, mixLayers c Ls₁ = mixLayers c Ls₂ := by
  induction h with
  | nil => intro c; rfl
  | @cons a b l₁ l₂ hab hrest ih =>
    intro c
    have ha : mixLayer c a = mixLayer c b := by
      rw [hab]
      exact mixLayer_key_mask_irrelevant c b a.key.mask
    simp only [mixLayers]
    rw [ha, ih (mixLayer c b).2]

/-- Claim C10: the key projection module's own mask never influences the
compaction result — for every two input models that differ only in their key
modules' masks, `mix()` produces identical mutated states (hence identical
fused query, key, value and output transforms) and an identical packed model
with an identical Packed Layer Configuration, because the key path's kept
indices are parsed exclusively from the query module's mask. -/
theorem c10_key_mask_noninterference (M₁ M₂ : CompactModel)
    (h : ModelEqExceptKeyMasks M₁ M₂) : mixModel M₁ = mixModel M₂ := by
  obtain ⟨h1, h2, h3, h4⟩ := h
  have hst : mixState M₁ = mixState M₂ := by
    simp only [mixState]
    rw [h1, h2, h3, mixLayers_key_mask_irrelevant M₁.layers M₂.layers h4 M₂.embLayerNorm]
  calc mixModel M₁
      = (fun st => match getPackedConfig st with
          | some cfg =>
            (st, some { config := cfg
                        params := applyStateDict (factory cfg).params (stateDict st) })
          | none => (st, none)) (mixState M₁) := rfl
    _ = (fun st => match getPackedConfig st with
          | some cfg =>
            (st, some { config := cfg
                        params := applyStateDict (factory cfg).params (stateDict st) })
          | none => (st, none)) (mixState M₂) := by rw [hst]
    _ = mixModel M₂ := rfl

/-- A layer identical to `c4Layer` except for the key module's mask. -/
def c10Layer : CompactLayer := { c4Layer with key := { c4Layer.key with mask := c4MaskPartial } }

/-- A model identical to `c6Model` except for the key module's mask. -/
def c10Model : CompactModel := ⟨c4NormPlain, [c10Layer], idLin 2, 2⟩

theorem c10_witness : mixModel c10Model = mixModel c6Model :=
  c10_key_mask_noninterference c10Model c6Model
    ⟨rfl, rfl, rfl, List.Forall₂.cons rfl List.Forall₂.nil⟩

end SP3
